import Mathlib

/-!
# Shallow embedding of `src/dispatcher.js` (fluxApp promise dispatcher)

This file embeds the Flux dispatcher of `src/dispatcher.js` and proves the
frozen claims about it.  The dispatcher is single-threaded, promise-based
JavaScript (bluebird); the embedding makes the following modelling choices,
each of which mirrors a concrete fact about the source:

* Callback identifiers are modelled as `Nat`.  The source generates string
  ids `"ID_" ++ n` from the monotone counter `_lastID` (lines 5-6, 28-34);
  `idName` recovers the string rendering where an error message embeds it.
* `this._callbacks` is a string-keyed object iterated with `Object.keys`,
  which yields insertion order for such keys; it is modelled as an
  insertion-ordered association list `List (Nat × Callback)`.
* `_isDispatching` is never initialised, so it takes three values over the
  object's lifetime: `undefined`, `true`, `false`.  It is modelled as
  `Option Bool` with `none` for `undefined`.  `isDispatching()` is
  `false !== this._isDispatching` (line 49), i.e. anything but
  `some false` counts as dispatching; the guard `if (this._isDispatching)`
  in `dispatch` (line 123) is a truthiness test, i.e. only `some true`.
* A registered callback is an arbitrary function of the payload.  Its body
  is modelled syntactically by `Prog`: it can finish, throw, call
  `waitFor(ids)` and continue with the (settled) result, or call
  `this.dispatch(p)` without awaiting it ("actions called from within other
  actions", which the class documentation explicitly supports).
* bluebird scheduling is collapsed cooperatively: every promise continuation
  runs to completion before control returns to its caller.  All claim-relevant
  behaviour (which callback runs, with which payload, in which order relative
  to batch boundaries; all state mutations) is synchronous in the source, so
  this collapse preserves the sequence of invocations and state updates.
* `Promise.each(idxs, it)` (line 85) iterates serially and rejects as soon
  as one iteration rejects; the remaining items are not visited.  `batchEach`
  models exactly that.
* `Promise.using(resource, handler)` runs the disposer on every exit path
  and settles afterwards with the handler's outcome; `dispatchBatch` and
  `runJob` therefore always run their cleanup (`_stopDispatching` resp.
  `_postDispatch`) before returning the handler's result.
* The interpreter is total via a fuel parameter; exhausted fuel yields the
  distinguished error `outOfFuelMsg`.  Cleanup steps still run when fuel
  runs out inside a callback, matching the disposer guarantee.

An instrumentation trace (`Ev`) records each callback invocation together
with the broadcast number and payload of the pending map it was read from,
each callback settlement, and each execution of the stop-dispatching step.
The trace exists only in the model; it observes, never influences, behaviour.
-/

namespace FluxDispatcher

/-- A callback body: finish, throw, call `waitFor ids` and continue with the
settled result, or fire `dispatch p` without awaiting it. -/
inductive Prog where
  | done : Prog
  | fail : String → Prog
  | waitForP : List Nat → (Except String Unit → Prog) → Prog
  | dispatchP : Nat → Prog → Prog

/-- A registered callback: a function of the dispatched payload. -/
abbrev Callback := Nat → Prog

/-- Instrumentation events.  `invoke b p i`: callback `i` starts running with
payload `p` read from the pending map of broadcast `b`.  `settle b i ok`:
that invocation settled (resolved iff `ok`).  `stop`: `_stopDispatching`
executed. -/
inductive Ev where
  | invoke : Nat → Nat → Nat → Ev
  | settle : Nat → Nat → Bool → Ev
  | stop : Ev
deriving DecidableEq, Repr

/-- Dispatcher state.  Fields mirror the instance fields of the class:
`callbacks` is `_callbacks`, `lastID` is `_lastID`, `flag` is
`_isDispatching` (`none` = undefined), `openPromises` is `_openPromises`,
`dispatchingId` is `_dispatchingId`, `queued` is `_queued` (payloads in FIFO
order).  The current `_pending` object is the id list `pending` together with
the payload and broadcast number its closures captured (`pendingPayload`,
`pendingBno`); `dispatch` replaces the whole object, which the model renders
by overwriting all three fields.  `nextBno` numbers broadcasts; `trace` is
the instrumentation trace. -/
structure DState where
  callbacks : List (Nat × Callback)
  lastID : Nat
  flag : Option Bool
  openPromises : List Nat
  dispatchingId : Option Nat
  pending : List Nat
  pendingPayload : Nat
  pendingBno : Nat
  queued : List Nat
  nextBno : Nat
  trace : List Ev

/-- The state of a freshly constructed `Dispatcher` (field initialisers at
lines 5, 16-18; `_isDispatching`, `_dispatchingId`, `_pending` start
undefined). -/
def initState : DState :=
  { callbacks := [], lastID := 1, flag := none, openPromises := [],
    dispatchingId := none, pending := [], pendingPayload := 0,
    pendingBno := 0, queued := [], nextBno := 1, trace := [] }

/-- The string rendering of an id: `_prefix + n` (lines 5-6, 29). -/
def idName (id : Nat) : String := "ID_" ++ toString id

/-- Error message of `waitFor` outside a broadcast (line 159). -/
def notDispatchingMsg : String :=
  "Dispatcher.waitFor(...): Must be invoked while dispatching."

/-- Error message of `waitFor` on an unregistered id (lines 168-170). -/
def unknownIdMsg (id : Nat) : String :=
  "Dispatcher.waitFor(...): `" ++ idName id ++ "` does not map to a registered callback."

/-- Error message of `waitFor` on an id in the open set (line 174). -/
def circularMsg : String :=
  "Dispatcher.waitFor(...): Circular dependency detected"

/-- Result of exhausting the model's fuel (no source counterpart; a callback
that never settles stalls the real dispatcher forever). -/
def outOfFuelMsg : String := "model: out of fuel"

/-- Key lookup in the `_callbacks` object. -/
def lookupCb : List (Nat × Callback) → Nat → Option Callback
  | [], _ => none
  | (k, f) :: rest, id => if k = id then some f else lookupCb rest id

/-- `register` (lines 28-34): store the callback under the next id, bump the
counter, return the id.  `Promise.method` wrapping is implicit: `runProg`
already turns a thrown error into a rejection. -/
def register (s : DState) (cb : Callback) : DState × Nat :=
  ({ s with callbacks := s.callbacks ++ [(s.lastID, cb)], lastID := s.lastID + 1 },
   s.lastID)

/-- `unregister` (lines 41-43): `delete this._callbacks[id]`. -/
def unregister (s : DState) (id : Nat) : DState :=
  { s with callbacks := s.callbacks.filter (fun kv => kv.1 != id) }

/-- `isDispatching` (lines 48-50): `false !== this._isDispatching`.  Note the
initially-undefined flag also satisfies this test. -/
def isDispatching (s : DState) : Bool := s.flag != some false

/-- `_postDispatch` (lines 193-199): delete the id from the current pending
map and remove it from the open set.  The guard `if (idx)` is always true for
the string ids the code passes, so it is modelled as unconditional. -/
def postDispatch (s : DState) (idx : Nat) : DState :=
  { s with pending := s.pending.filter (fun y => y != idx),
           openPromises := s.openPromises.filter (fun y => y != idx) }

/-- The `ids.forEach` body of `waitFor` (lines 164-180): scan `ids` in order;
an unregistered id throws `unknownIdMsg`, an id in the open set throws
`circularMsg`, an id with a live pending entry is collected into the local
`pending` object (first occurrence wins, matching object-key insertion
order). -/
def collectWait (s : DState) : List Nat → List Nat → Except String (List Nat)
  | [], acc => Except.ok acc
  | id :: rest, acc =>
      if (lookupCb s.callbacks id).isNone then Except.error (unknownIdMsg id)
      else if id ∈ s.openPromises then Except.error circularMsg
      else if id ∈ s.pending ∧ id ∉ acc then collectWait s rest (acc ++ [id])
      else collectWait s rest acc

/-- Whether a settlement is a resolution. -/
def okBool : Except String Unit → Bool
  | Except.ok _ => true
  | Except.error _ => false

instance : DecidableEq (Except String Unit) := fun a b =>
  match a, b with
  | Except.ok (), Except.ok () => isTrue rfl
  | Except.error e, Except.error f =>
      if h : e = f then isTrue (by rw [h])
      else isFalse (by intro hh; cases hh; exact h rfl)
  | Except.ok _, Except.error _ => isFalse (by intro h; cases h)
  | Except.error _, Except.ok _ => isFalse (by intro h; cases h)

/-- Outcome of a `dispatch` call: either the batch's settlement, or the
deferred promise handed out when the payload was queued (lines 123-125). -/
inductive DOutcome where
  | settled : Except String Unit → DOutcome
  | queuedOutcome : DOutcome
deriving DecidableEq

/-- The interpreter's work items, one per source function that can run
re-entrantly: a callback body, a `waitFor` call, `_dispatchBatch`, its
`Promise.each` loop, one job, a `dispatch` call, `_stopDispatching`, and
`_drain`.  A single work-item type keeps the interpreter structurally
recursive on its fuel, so the kernel can evaluate it. -/
inductive Task where
  | prog : Prog → Task
  | wait : List Nat → Task
  | batch : List Nat → Task
  | each : List Nat → Task
  | job : Nat → Task
  | disp : Nat → Task
  | stopD : Task
  | drainQ : Task

/-- One unfolding of the interpreter.  `recur` is the interpreter with one
unit of fuel less, or `none` when the fuel is exhausted; a case consults it
exactly where the source function re-enters another dispatcher function, so
cleanup code that follows a re-entrant call still runs when fuel runs out
(matching the disposer guarantee of `Promise.using`).

* `Task.prog` — a callback body: resolve, reject, or perform
  `this.dispatch(p)` without awaiting / `this.waitFor(ids)` and continue.
* `Task.wait` — `waitFor` (lines 156-183): reject unless a broadcast is open
  (`@promiseMethod` turns the throws into rejections), scan the ids
  (`collectWait`), run the collected pending entries as a nested batch via
  the same `_dispatchBatch`, or resolve immediately when nothing was
  collected.  Guard failures return the state untouched: the scan mutates
  only the function-local `pending` object.
* `Task.batch` — `_dispatchBatch` (lines 83-96) with `_batchPromise`
  (lines 98-105): run the ids serially, then unconditionally run the batch
  disposer — clear `_dispatchingId` and call `_stopDispatching` — and settle
  with the loop's outcome.  The source runs this disposer for nested
  `waitFor` sub-batches too: there is no top-level check.
* `Task.each` — the `Promise.each` loop (lines 85-94): for each id in order,
  mark it as the currently dispatching id, push it onto the open set, run
  its job; a rejected job rejects the loop and the remaining ids are not
  visited.
* `Task.job` — one job (lines 89-93) under `_jobPromise` (lines 107-112):
  read the pending entry from the *current* `_pending` object; if present,
  run it (the closure of lines 134-137 re-checks that the callback is still
  registered and resolves immediately otherwise), else resolve; in every
  case finish with the `_postDispatch` cleanup.
* `Task.disp` — `dispatch` (lines 122-141): queue the payload if
  `_isDispatching` is truthy; otherwise set the flag, reset the open set,
  build a fresh pending map from the current registration snapshot, and run
  the batch over the keys of `_callbacks`.
* `Task.stopD` — `_stopDispatching` (lines 146-149): clear the flag, drain.
* `Task.drainQ` — `_drain` (lines 67-76): pop the front queue entry, if
  any, and dispatch its payload (the `.then(resolve, reject)` wiring of the
  popped deferred is not observed by any claim and is not modelled). -/
def stepF (recur : Option (DState → Task → DState × Except String Unit))
    (s : DState) : Task → DState × Except String Unit
  | Task.prog pr =>
    match pr with
    | Prog.done => (s, Except.ok ())
    | Prog.fail m => (s, Except.error m)
    | Prog.dispatchP p k =>
      match recur with
      | none => (s, Except.error outOfFuelMsg)
      | some f =>
        let r := f s (Task.disp p)
        f r.1 (Task.prog k)
    | Prog.waitForP ids k =>
      match recur with
      | none => (s, Except.error outOfFuelMsg)
      | some f =>
        let r := f s (Task.wait ids)
        f r.1 (Task.prog (k r.2))
  | Task.wait ids =>
    if s.flag = some true then
      match collectWait s ids [] with
      | Except.error e => (s, Except.error e)
      | Except.ok [] => (s, Except.ok ())
      | Except.ok (i :: rest) =>
        match recur with
        | none => (s, Except.error outOfFuelMsg)
        | some f => f s (Task.batch (i :: rest))
    else (s, Except.error notDispatchingMsg)
  | Task.batch idxs =>
    match recur with
    | none => (s, Except.error outOfFuelMsg)
    | some f =>
      let r := f s (Task.each idxs)
      let s1 : DState := { r.1 with dispatchingId := none }
      ((f s1 Task.stopD).1, r.2)
  | Task.each [] => (s, Except.ok ())
  | Task.each (idx :: rest) =>
    match recur with
    | none => (s, Except.error outOfFuelMsg)
    | some f =>
      let s1 : DState :=
        { s with dispatchingId := some idx,
                 openPromises := s.openPromises ++ [idx] }
      let r := f s1 (Task.job idx)
      match r.2 with
      | Except.ok _ => f r.1 (Task.each rest)
      | Except.error e => (r.1, Except.error e)
  | Task.job idx =>
    let r :=
      if idx ∈ s.pending then
        match lookupCb s.callbacks idx with
        | some cb =>
          match recur with
          | none => (s, Except.error outOfFuelMsg)
          | some f =>
            let b := s.pendingBno
            let pay := s.pendingPayload
            let s1 : DState := { s with trace := s.trace ++ [Ev.invoke b pay idx] }
            let r1 := f s1 (Task.prog (cb pay))
            ({ r1.1 with trace := r1.1.trace ++ [Ev.settle b idx (okBool r1.2)] },
             r1.2)
        | none => (s, Except.ok ())
      else (s, Except.ok ())
    (postDispatch r.1 idx, r.2)
  | Task.disp p =>
    if s.flag = some true then
      ({ s with queued := s.queued ++ [p] }, Except.ok ())
    else
      match recur with
      | none => (s, Except.error outOfFuelMsg)
      | some f =>
        let keys := s.callbacks.map Prod.fst
        let s1 : DState :=
          { s with flag := some true, openPromises := [], pending := keys,
                   pendingPayload := p, pendingBno := s.nextBno,
                   nextBno := s.nextBno + 1 }
        f s1 (Task.batch keys)
  | Task.stopD =>
    let s1 : DState := { s with flag := some false, trace := s.trace ++ [Ev.stop] }
    match recur with
    | none => (s1, Except.ok ())
    | some f => ((f s1 Task.drainQ).1, Except.ok ())
  | Task.drainQ =>
    match s.queued with
    | [] => (s, Except.ok ())
    | p :: rest =>
      match recur with
      | none => (s, Except.ok ())
      | some f => ((f { s with queued := rest } (Task.disp p)).1, Except.ok ())

/-- The interpreter: iterate `stepF`, spending one unit of fuel per
re-entrant call.  Defined by bare `Nat.rec` so that it evaluates by kernel
reduction. -/
def step (fuel : Nat) : DState → Task → DState × Except String Unit :=
  Nat.rec (stepF none) (fun _ ih => stepF (some ih)) fuel

/-- `dispatch`'s return value: the deferred of `_queue` when a broadcast was
already open, otherwise the batch's settlement.  The state transition is
`step` on `Task.disp`. -/
def dispatch (fuel : Nat) (s : DState) (p : Nat) : DState × DOutcome :=
  let r := step fuel s (Task.disp p)
  if s.flag = some true then (r.1, DOutcome.queuedOutcome)
  else (r.1, DOutcome.settled r.2)

/-- `waitFor` as called from within a callback. -/
def waitForCall (fuel : Nat) (s : DState) (ids : List Nat) :
    DState × Except String Unit :=
  step fuel s (Task.wait ids)

/-- `_dispatchBatch`. -/
def dispatchBatch (fuel : Nat) (s : DState) (idxs : List Nat) :
    DState × Except String Unit :=
  step fuel s (Task.batch idxs)

/-- A top-level operation issued by client code between awaits. -/
inductive TopOp where
  | reg : Callback → TopOp
  | unreg : Nat → TopOp
  | disp : Nat → TopOp

/-- Run one top-level operation (the returned id / outcome is dropped). -/
def runTop (fuel : Nat) (s : DState) : TopOp → DState
  | TopOp.reg cb => (register s cb).1
  | TopOp.unreg id => unregister s id
  | TopOp.disp p => (dispatch fuel s p).1

/-- Run a top-level script from a state. -/
def runScript (fuel : Nat) : DState → List TopOp → DState
  | s, [] => s
  | s, op :: rest => runScript fuel (runTop fuel s op) rest

/-- The `(broadcast, id)` pairs of the invocation events of a trace. -/
def invokes (tr : List Ev) : List (Nat × Nat) :=
  tr.filterMap (fun e => match e with
    | Ev.invoke b _ i => some (b, i)
    | _ => none)

/-- How often the stop-dispatching step ran. -/
def stopsCount (tr : List Ev) : Nat :=
  (tr.filter (fun e => match e with | Ev.stop => true | _ => false)).length

/-- A callback continuation that forwards the `waitFor` settlement: resolve
on resolution, rethrow the error on rejection (the source's
`return this.waitFor(...)` pattern). -/
def propagate : Except String Unit → Prog
  | Except.ok _ => Prog.done
  | Except.error e => Prog.fail e

/-- A callback that resolves immediately. -/
def cbNoop : Callback := fun _ => Prog.done

/-- A callback that throws `Error("boom")`. -/
def cbBoom : Callback := fun _ => Prog.fail "boom"

/-- Scenario for claim C1.  First registration (id 1): on payload 10, call
`dispatch 20` without awaiting it (queued, since a broadcast is open), then
`waitFor` the second registration (id 2); on any other payload resolve.
Second registration: a no-op callback.  Then dispatch payload 10. -/
def cbC1 : Callback := fun p =>
  if p = 10 then Prog.dispatchP 20 (Prog.waitForP [2] propagate) else Prog.done

def scenarioC1 : List TopOp := [TopOp.reg cbC1, TopOp.reg cbNoop, TopOp.disp 10]

/-- Scenario for claim C2: id 1 waits for id 2, nothing is queued; one
single broadcast of payload 30. -/
def cbC2 : Callback := fun _ => Prog.waitForP [2] propagate

def scenarioC2 : List TopOp := [TopOp.reg cbC2, TopOp.reg cbNoop, TopOp.disp 30]

/-- Registration prefix for the C3 counterexample: the throwing callback
(id 1) registered before a no-op callback (id 2). -/
def stateC3 : DState := runScript 40 initState [TopOp.reg cbBoom, TopOp.reg cbNoop]

/-- Registration prefix for the amended C3 claim: no-op (id 1), thrower
(id 2), no-op (id 3). -/
def stateC3a : DState :=
  runScript 40 initState [TopOp.reg cbNoop, TopOp.reg cbBoom, TopOp.reg cbNoop]

/-- Scenario for claim C4: like C1 but with a third registered callback, so
that the skipped remainder of the first broadcast is visible. -/
def cbC4 : Callback := fun p =>
  if p = 40 then Prog.dispatchP 50 (Prog.waitForP [2] propagate) else Prog.done

def scenarioC4 : List TopOp :=
  [TopOp.reg cbC4, TopOp.reg cbNoop, TopOp.reg cbNoop, TopOp.disp 40]

/-- Chain scenario for claim C5: id 1 waits on id 2, id 2 waits on id 1. -/
def stateC5 : DState :=
  runScript 40 initState
    [TopOp.reg (fun _ => Prog.waitForP [2] propagate),
     TopOp.reg (fun _ => Prog.waitForP [1] propagate)]

/-- Scenario for the concrete part of claim C7: id 1 waits for id 2 during
the broadcast, so the parent loop reaches id 2 after its pending entry was
consumed by the sub-batch. -/
def scenarioC7 : List TopOp :=
  [TopOp.reg (fun _ => Prog.waitForP [2] propagate), TopOp.reg cbNoop,
   TopOp.disp 30]

/-- Concrete mid-broadcast state for the C5 witness: id 1 registered and
currently executing (on the open set). -/
def stateC5w : DState :=
  { initState with flag := some true, callbacks := [(1, cbNoop)],
                   openPromises := [1] }

/-- Concrete mid-broadcast state for the C8 witness: only id 1 registered,
so id 2 has no registration. -/
def stateC8w : DState :=
  { initState with flag := some true, callbacks := [(1, cbNoop)],
                   pending := [1] }

/-- Concrete state for the C9 witness: id 5 registered, and a stale invoke
event for id 5 already on the trace. -/
def stateC9w : DState :=
  { initState with callbacks := [(5, cbNoop)],
                   trace := [Ev.invoke 0 0 5] }

/-- Relation between a pre-state and a post-state of any interpreter step:
the registration map is unchanged (nothing inside a dispatch registers or
unregisters), and every invoke event that is new on the trace names an
identifier that was registered in the pre-state — a callback is only ever
invoked through a successful `this._callbacks[idx]` lookup. -/
def RegPost (s s' : DState) : Prop :=
  s'.callbacks = s.callbacks ∧
  ∀ b q i, Ev.invoke b q i ∈ s'.trace →
    Ev.invoke b q i ∈ s.trace ∨ i ∈ s.callbacks.map Prod.fst

/-- Claim C1 (code bug).  The claim says no callback is ever invoked with one
dispatch's payload while another broadcast's callbacks are still executing.
The code violates it: in `scenarioC1` the callback of id 1 queues payload 20
and then enters a `waitFor` sub-batch; the sub-batch's cleanup
(`_batchPromise`'s disposer, lines 98-105) unconditionally runs
`_stopDispatching`, which clears the flag and drains the queue, so broadcast
2 (payload 20) opens and runs both callbacks (`invoke 2 20 _` events) before
the still-executing callback of broadcast 1 settles (`settle 1 1 true`). -/
theorem dispatch_interleaves_queued_broadcast :
    (runScript 40 initState scenarioC1).trace =
      [Ev.invoke 1 10 1, Ev.invoke 1 10 2, Ev.settle 1 2 true, Ev.stop,
       Ev.invoke 2 20 1, Ev.settle 2 1 true, Ev.invoke 2 20 2,
       Ev.settle 2 2 true, Ev.stop, Ev.settle 1 1 true, Ev.stop] := by
  decide

/-- Claim C2 (code bug).  The claim says the stop-dispatching step runs
exactly once per broadcast, only when the top-level batch finishes, and that
a nested `waitFor` sub-batch's cleanup does not clear the flag or drain the
queue.  In the code the shared batch disposer always calls
`_stopDispatching`: in `scenarioC2` (one broadcast containing one `waitFor`
sub-batch) the step runs twice, and the first `Ev.stop` — which sets
`_isDispatching` to `false` and drains — occurs before the outer broadcast's
callback has settled (`settle 1 1 true`). -/
theorem stop_step_runs_in_nested_cleanup :
    stopsCount (runScript 40 initState scenarioC2).trace = 2 ∧
    (runScript 40 initState scenarioC2).trace =
      [Ev.invoke 1 30 1, Ev.invoke 1 30 2, Ev.settle 1 2 true, Ev.stop,
       Ev.settle 1 1 true, Ev.stop] := by
  decide

/-- Claim C3, counterexample.  The claim says that when one callback throws
`Error("boom")`, every other callback registered for that broadcast — even
later in registration order — still executes.  In the code `Promise.each`
rejects as soon as one job rejects: with the thrower registered first
(`stateC3`), the dispatch outcome rejects with "boom" but id 2 is never
invoked (the invocation list of the broadcast is just `(1, 1)`). -/
theorem dispatch_short_circuits_on_rejection :
    (dispatch 40 stateC3 7).2 = DOutcome.settled (Except.error "boom") ∧
    invokes (dispatch 40 stateC3 7).1.trace = [(1, 1)] := by
  decide

/-- Claim C3, amended.  If a registered callback throws `Error("boom")`
during a broadcast, the outcome returned by `dispatch` rejects with an error
whose message is "boom", and every callback *earlier* in registration order
has executed exactly once; callbacks later than the thrower are not invoked,
because the batch stops at the first rejection.  Shown on `stateC3a`
(no-op id 1, thrower id 2, no-op id 3): the invocation list of the broadcast
is exactly `[(1,1), (1,2)]` and the outcome is the "boom" rejection. -/
theorem dispatch_rejects_boom_and_stops_batch :
    (dispatch 40 stateC3a 7).2 = DOutcome.settled (Except.error "boom") ∧
    invokes (dispatch 40 stateC3a 7).1.trace = [(1, 1), (1, 2)] := by
  decide

/-- Claim C4 (code bug).  The claim says a `dispatch(P2)` issued while
`dispatch(P1)` is unsettled is queued and that no callback runs with `P2`
until every callback has finished running with `P1`.  In `scenarioC4`,
payload 50 is queued during broadcast 1 (payload 40); the nested `waitFor`
sub-batch's cleanup drains the queue, so all of broadcast 2's invocations
(`invoke 2 50 _`) happen before broadcast 1's first callback settles
(`settle 1 1 true`) — and broadcast 1 never invokes id 3 at all (no
`(1, 3)` entry), because broadcast 2's dispatch replaced the pending map. -/
theorem queued_dispatch_runs_inside_open_broadcast :
    (runScript 40 initState scenarioC4).trace =
      [Ev.invoke 1 40 1, Ev.invoke 1 40 2, Ev.settle 1 2 true, Ev.stop,
       Ev.invoke 2 50 1, Ev.settle 2 1 true, Ev.invoke 2 50 2,
       Ev.settle 2 2 true, Ev.invoke 2 50 3, Ev.settle 2 3 true, Ev.stop,
       Ev.settle 1 1 true, Ev.stop] ∧
    (1, 3) ∉ invokes (runScript 40 initState scenarioC4).trace := by
  decide

/-- Claim C6 (code bug).  The claim says `isDispatching()` returns `false`
in the initial state, before any dispatch.  The code computes
`false !== this._isDispatching` (line 49) and `_isDispatching` is never
initialised, so on a fresh dispatcher the comparison is
`false !== undefined`, which is `true`. -/
theorem isDispatching_true_on_fresh_dispatcher :
    isDispatching initState = true := by
  decide

/-- The state invariant for the at-most-once property.  Clauses:
1. no `(broadcast, id)` pair has two invoke events on the trace;
2. an id of the current pending map that has already been invoked in the
   current broadcast is still on the open set (its `_postDispatch`, which
   would have removed it from the pending map, has not run yet);
3. the registration keys are pairwise distinct;
4. every registration key is below the id counter;
5. the current pending map belongs to an already-allocated broadcast number;
6. every invoke event on the trace belongs to an already-allocated broadcast
   number. -/
def WF (s : DState) : Prop :=
  (invokes s.trace).Nodup ∧
  (∀ id ∈ s.pending, (s.pendingBno, id) ∈ invokes s.trace → id ∈ s.openPromises) ∧
  (s.callbacks.map Prod.fst).Nodup ∧
  (∀ k ∈ s.callbacks.map Prod.fst, k < s.lastID) ∧
  s.pendingBno < s.nextBno ∧
  (∀ q ∈ invokes s.trace, q.1 < s.nextBno)

/-- Frame relation of one interpreter step: registrations and the id counter
are untouched, broadcast numbers only grow, the trace only grows, and either
the current pending map survived (same broadcast number, the open set ends
exactly as it started, the pending map only shrank) or a new broadcast was
opened meanwhile (larger broadcast number; every batch leaves the open set
balanced, and a new broadcast starts it from empty, so it ends empty). -/
def Evolves (s s' : DState) : Prop :=
  s'.callbacks = s.callbacks ∧
  s'.lastID = s.lastID ∧
  s.nextBno ≤ s'.nextBno ∧
  (∃ tl, s'.trace = s.trace ++ tl) ∧
  ((s'.pendingBno = s.pendingBno ∧ s'.openPromises = s.openPromises ∧
      (∀ x ∈ s'.pending, x ∈ s.pending)) ∨
   (s.pendingBno < s'.pendingBno ∧ s'.openPromises = []))

/-- Frame relation of one job: as `Evolves`, except that the job's
`_postDispatch` cleanup additionally removes `idx` from the open set. -/
def EvolvesJob (s s' : DState) (idx : Nat) : Prop :=
  s'.callbacks = s.callbacks ∧
  s'.lastID = s.lastID ∧
  s.nextBno ≤ s'.nextBno ∧
  (∃ tl, s'.trace = s.trace ++ tl) ∧
  ((s'.pendingBno = s.pendingBno ∧
      s'.openPromises = s.openPromises.filter (fun y => y != idx) ∧
      (∀ x ∈ s'.pending, x ∈ s.pending)) ∨
   (s.pendingBno < s'.pendingBno ∧ s'.openPromises = []))

/-- Precondition of a work item.  A batch's id list is duplicate-free
(object keys) and disjoint from the open set (the dispatch-level batch
starts with an empty open set; a `waitFor` sub-batch filtered open ids out
during its circularity check).  A job's id was just pushed onto the open
set, and if it was already invoked in the current broadcast it has already
been cleaned out of the pending map. -/
def TaskPre (s : DState) : Task → Prop
  | Task.batch idxs => idxs.Nodup ∧ ∀ i ∈ idxs, i ∉ s.openPromises
  | Task.each idxs => idxs.Nodup ∧ ∀ i ∈ idxs, i ∉ s.openPromises
  | Task.job idx => idx ∈ s.openPromises ∧
      ((s.pendingBno, idx) ∈ invokes s.trace → idx ∉ s.pending)
  | _ => True

/-- Postcondition of a work item: the frame relation, in its job variant for
`Task.job`. -/
def TaskPost (s s' : DState) : Task → Prop
  | Task.job idx => EvolvesJob s s' idx
  | _ => Evolves s s'

/-- Contract of an interpreter: it preserves `WF` and satisfies the frame
postcondition whenever the work item's precondition holds. -/
def StepOk (f : DState → Task → DState × Except String Unit) : Prop :=
  ∀ s t, WF s → TaskPre s t → WF ((f s t).1) ∧ TaskPost s ((f s t).1) t

theorem step_zero : step 0 = stepF none := rfl

theorem step_succ (fuel : Nat) : step (fuel + 1) = stepF (some (step fuel)) := rfl

theorem collectWait_circular (s : DState) :
    ∀ ids acc, (∀ i ∈ ids, (lookupCb s.callbacks i).isSome = true) →
      (∃ i, i ∈ ids ∧ i ∈ s.openPromises) →
      collectWait s ids acc = Except.error circularMsg := by
  intro ids
  induction ids with
  | nil =>
    intro acc _ hopen
    obtain ⟨i, hi, _⟩ := hopen
    exact absurd hi (List.not_mem_nil i)
  | cons id rest ih =>
    intro acc hreg hopen
    have hid := hreg id (List.mem_cons_self id rest)
    have hnone : (lookupCb s.callbacks id).isNone = false := by
      cases h : lookupCb s.callbacks id with
      | none => rw [h] at hid; simp at hid
      | some _ => rfl
    by_cases hmem : id ∈ s.openPromises
    · simp [collectWait, hnone, hmem]
    · have hrest : ∃ i, i ∈ rest ∧ i ∈ s.openPromises := by
        obtain ⟨i, hi, hio⟩ := hopen
        rcases List.mem_cons.mp hi with h1 | h2
        · exact absurd (h1 ▸ hio) hmem
        · exact ⟨i, h2, hio⟩
      have hreg' : ∀ i ∈ rest, (lookupCb s.callbacks i).isSome = true :=
        fun i hi => hreg i (List.mem_cons_of_mem id hi)
      by_cases hp : id ∈ s.pending ∧ id ∉ acc
      · simp only [collectWait, hnone, Bool.false_eq_true, if_false, hmem,
                   hp, if_true]
        exact ih (acc ++ [id]) hreg' hrest
      · simp only [collectWait, hnone, Bool.false_eq_true, if_false, hmem,
                   hp, if_true]
        exact ih acc hreg' hrest

theorem collectWait_unknown (s : DState) :
    ∀ pre bad post acc, (∀ i ∈ pre, (lookupCb s.callbacks i).isSome = true) →
      (∀ i ∈ pre, i ∉ s.openPromises) →
      lookupCb s.callbacks bad = none →
      collectWait s (pre ++ bad :: post) acc =
        Except.error (unknownIdMsg bad) := by
  intro pre
  induction pre with
  | nil =>
    intro bad post acc _ _ hbad
    simp [collectWait, hbad]
  | cons id rest ih =>
    intro bad post acc hreg hopen hbad
    have hid := hreg id (List.mem_cons_self id rest)
    have hnone : (lookupCb s.callbacks id).isNone = false := by
      cases h : lookupCb s.callbacks id with
      | none => rw [h] at hid; simp at hid
      | some _ => rfl
    have hno : id ∉ s.openPromises := hopen id (List.mem_cons_self id rest)
    have hreg' : ∀ i ∈ rest, (lookupCb s.callbacks i).isSome = true :=
      fun i hi => hreg i (List.mem_cons_of_mem id hi)
    have hopen' : ∀ i ∈ rest, i ∉ s.openPromises :=
      fun i hi => hopen i (List.mem_cons_of_mem id hi)
    by_cases hp : id ∈ s.pending ∧ id ∉ acc
    · simp only [List.cons_append, collectWait, hnone, Bool.false_eq_true,
                 if_false, hno, hp, if_true]
      exact ih bad post (acc ++ [id]) hreg' hopen' hbad
    · simp only [List.cons_append, collectWait, hnone, Bool.false_eq_true,
                 if_false, hno, hp, if_true]
      exact ih bad post acc hreg' hopen' hbad

theorem stepF_wait_error (recur : Option (DState → Task → DState × Except String Unit))
    (s : DState) (ids : List Nat) (e : String)
    (hflag : s.flag = some true)
    (hc : collectWait s ids [] = Except.error e) :
    stepF recur s (Task.wait ids) = (s, Except.error e) := by
  simp [stepF, hflag, hc]

/-- Claim C5 (confirmed).  First conjunct: whenever a broadcast is open,
every requested id is registered, and some requested id is on the open set —
which is exactly the situation of a `waitFor(ids)` issued (directly or
through a chain of nested `waitFor` sub-batches) from inside the callback of
an id contained in `ids`, since `_openPromises` holds precisely the
identifiers whose callbacks are currently executing — the call rejects
immediately with the circular-dependency error and leaves the state
untouched; no sub-batch is dispatched, so the call terminates without any
recursion (the conclusion holds for every fuel value, including zero).
Second conjunct: the two-element cycle (id 1 waits on id 2, id 2 waits on
id 1) rejects the whole dispatch with the same circular-dependency error in
finite fuel. -/
theorem waitFor_circular_rejects :
    (∀ fuel s ids, s.flag = some true →
        (∀ i ∈ ids, (lookupCb s.callbacks i).isSome = true) →
        (∃ i, i ∈ ids ∧ i ∈ s.openPromises) →
        waitForCall fuel s ids = (s, Except.error circularMsg)) ∧
    (dispatch 40 stateC5 60).2 = DOutcome.settled (Except.error circularMsg) := by
  constructor
  · intro fuel s ids hflag hreg hopen
    have hc := collectWait_circular s ids [] hreg hopen
    cases fuel with
    | zero => exact stepF_wait_error none s ids circularMsg hflag hc
    | succ n => exact stepF_wait_error (some (step n)) s ids circularMsg hflag hc
  · decide

theorem waitFor_circular_rejects_witness :
    waitForCall 0 stateC5w [1] = (stateC5w, Except.error circularMsg) :=
  waitFor_circular_rejects.1 0 stateC5w [1] rfl (by decide) (by decide)

/-- Claim C8 (confirmed).  A `waitFor` whose ids contain an unregistered
identifier rejects with the error message that embeds that identifier
(`unknownIdMsg bad` spells out its `ID_n` rendering), and the call returns
the state completely unchanged — in particular the open broadcast's pending
map and open set are untouched, because the scan mutates only the
function-local `pending` object and throws before any sub-batch is
dispatched.  The identifier reported is the first offending one: the ids
before it must pass the registration and circularity checks, which the two
hypotheses on `pre` express. -/
theorem waitFor_unknown_id_rejects :
    ∀ fuel s pre bad post, s.flag = some true →
      (∀ i ∈ pre, (lookupCb s.callbacks i).isSome = true) →
      (∀ i ∈ pre, i ∉ s.openPromises) →
      lookupCb s.callbacks bad = none →
      waitForCall fuel s (pre ++ bad :: post) =
        (s, Except.error (unknownIdMsg bad)) := by
  intro fuel s pre bad post hflag hreg hopen hbad
  have hc := collectWait_unknown s pre bad post [] hreg hopen hbad
  cases fuel with
  | zero => exact stepF_wait_error none s _ _ hflag hc
  | succ n => exact stepF_wait_error (some (step n)) s _ _ hflag hc

theorem waitFor_unknown_id_rejects_witness :
    waitForCall 7 stateC8w ([1] ++ 2 :: []) =
      (stateC8w, Except.error (unknownIdMsg 2)) :=
  waitFor_unknown_id_rejects 7 stateC8w [1] 2 [] rfl (by decide) (by decide) rfl

theorem regPost_refl (s : DState) : RegPost s s :=
  ⟨rfl, fun _ _ _ h => Or.inl h⟩

theorem regPost_trans {a b c : DState} (h1 : RegPost a b) (h2 : RegPost b c) :
    RegPost a c := by
  refine ⟨h2.1.trans h1.1, ?_⟩
  intro bb q i hm
  rcases h2.2 bb q i hm with h | h
  · exact h1.2 bb q i h
  · rw [h1.1] at h
    exact Or.inr h

theorem regPost_same {s s' : DState} (h1 : s'.callbacks = s.callbacks)
    (h2 : s'.trace = s.trace) : RegPost s s' := by
  refine ⟨h1, ?_⟩
  intro b q i hm
  rw [h2] at hm
  exact Or.inl hm

theorem regPost_append_stop {s s' : DState} (h1 : s'.callbacks = s.callbacks)
    (h2 : s'.trace = s.trace ++ [Ev.stop]) : RegPost s s' := by
  refine ⟨h1, ?_⟩
  intro b q i hm
  rw [h2] at hm
  rcases List.mem_append.mp hm with h | h
  · exact Or.inl h
  · simp at h

theorem regPost_append_settle {s s' : DState} {bb ii : Nat} {ok : Bool}
    (h1 : s'.callbacks = s.callbacks)
    (h2 : s'.trace = s.trace ++ [Ev.settle bb ii ok]) : RegPost s s' := by
  refine ⟨h1, ?_⟩
  intro b q i hm
  rw [h2] at hm
  rcases List.mem_append.mp hm with h | h
  · exact Or.inl h
  · simp at h

theorem regPost_append_invoke {s s' : DState} {bb q ii : Nat}
    (h1 : s'.callbacks = s.callbacks)
    (h2 : s'.trace = s.trace ++ [Ev.invoke bb q ii])
    (h3 : ii ∈ s.callbacks.map Prod.fst) : RegPost s s' := by
  refine ⟨h1, ?_⟩
  intro b q' i hm
  rw [h2] at hm
  rcases List.mem_append.mp hm with h | h
  · exact Or.inl h
  · simp at h
    obtain ⟨hb, hq, hi⟩ := h
    subst hi
    exact Or.inr h3

theorem regPost_settle_post (X : DState) (b i : Nat) (o : Bool) (idx : Nat) :
    RegPost X (postDispatch { X with trace := X.trace ++ [Ev.settle b i o] } idx) := by
  refine ⟨rfl, ?_⟩
  intro bb q ii hm
  rcases List.mem_append.mp hm with h | h
  · exact Or.inl h
  · simp at h

theorem lookupCb_mem {l : List (Nat × Callback)} {i : Nat} {cb : Callback}
    (h : lookupCb l i = some cb) : i ∈ l.map Prod.fst := by
  induction l with
  | nil => simp [lookupCb] at h
  | cons kv rest ih =>
    obtain ⟨k, f⟩ := kv
    by_cases hk : k = i
    · subst hk
      simp
    · simp only [lookupCb, if_neg hk] at h
      simp [ih h]

theorem stepF_regPost
    (recur : Option (DState → Task → DState × Except String Unit))
    (hrec : ∀ f, recur = some f → ∀ s t, RegPost s ((f s t).1)) :
    ∀ s t, RegPost s ((stepF recur s t).1) := by
  intro s t
  cases t with
  | prog pr =>
    cases pr with
    | done => exact regPost_refl s
    | fail m => exact regPost_refl s
    | dispatchP p k =>
      cases hr : recur with
      | none => simp only [stepF, hr]; exact regPost_refl s
      | some f =>
        simp only [stepF, hr]
        exact regPost_trans (hrec f hr s _) (hrec f hr _ _)
    | waitForP ids k =>
      cases hr : recur with
      | none => simp only [stepF, hr]; exact regPost_refl s
      | some f =>
        simp only [stepF, hr]
        exact regPost_trans (hrec f hr s _) (hrec f hr _ _)
  | wait ids =>
    by_cases hflag : s.flag = some true
    · simp only [stepF, if_pos hflag]
      cases hc : collectWait s ids [] with
      | error e => exact regPost_refl s
      | ok l =>
        cases l with
        | nil => exact regPost_refl s
        | cons i rest =>
          cases hr : recur with
          | none => exact regPost_refl s
          | some f => exact hrec f hr s _
    · simp only [stepF, if_neg hflag]
      exact regPost_refl s
  | batch idxs =>
    cases hr : recur with
    | none => simp only [stepF, hr]; exact regPost_refl s
    | some f =>
      simp only [stepF, hr]
      exact regPost_trans (hrec f hr s (Task.each idxs))
        (regPost_trans (regPost_same rfl rfl) (hrec f hr _ Task.stopD))
  | each l =>
    cases l with
    | nil => exact regPost_refl s
    | cons idx rest =>
      cases hr : recur with
      | none => simp only [stepF, hr]; exact regPost_refl s
      | some f =>
        simp only [stepF, hr]
        have hstep1 : RegPost
            { s with dispatchingId := some idx,
                     openPromises := s.openPromises ++ [idx] }
            ((f { s with dispatchingId := some idx,
                         openPromises := s.openPromises ++ [idx] }
                (Task.job idx)).1) := hrec f hr _ _
        rcases hfe : f { s with dispatchingId := some idx,
                                openPromises := s.openPromises ++ [idx] }
            (Task.job idx) with ⟨s2, res⟩
        rw [hfe] at hstep1
        cases res with
        | ok u =>
          exact regPost_trans (regPost_same rfl rfl)
            (regPost_trans hstep1 (hrec f hr s2 _))
        | error e =>
          exact regPost_trans (regPost_same rfl rfl) hstep1
  | job idx =>
    by_cases hp : idx ∈ s.pending
    · cases hl : lookupCb s.callbacks idx with
      | none =>
        simp only [stepF, if_pos hp, hl]
        exact regPost_same rfl rfl
      | some cb =>
        cases hr : recur with
        | none =>
          simp only [stepF, if_pos hp, hl, hr]
          exact regPost_same rfl rfl
        | some f =>
          simp only [stepF, if_pos hp, hl, hr]
          have hinv : RegPost s
              { s with trace := s.trace ++ [Ev.invoke s.pendingBno s.pendingPayload idx] } :=
            regPost_append_invoke rfl rfl (lookupCb_mem hl)
          exact regPost_trans hinv (regPost_trans (hrec f hr _ _)
            (regPost_settle_post _ _ _ _ _))
    · simp only [stepF, if_neg hp]
      exact regPost_same rfl rfl
  | disp p =>
    by_cases hflag : s.flag = some true
    · simp only [stepF, if_pos hflag]
      exact regPost_same rfl rfl
    · simp only [stepF, if_neg hflag]
      cases hr : recur with
      | none => exact regPost_refl s
      | some f =>
        exact regPost_trans (regPost_same rfl rfl) (hrec f hr _ _)
  | stopD =>
    cases hr : recur with
    | none =>
      simp only [stepF, hr]
      exact regPost_append_stop rfl rfl
    | some f =>
      simp only [stepF, hr]
      have hmid : RegPost s
          { s with flag := some false, trace := s.trace ++ [Ev.stop] } :=
        regPost_append_stop rfl rfl
      exact regPost_trans hmid (hrec f hr _ _)
  | drainQ =>
    cases hq : s.queued with
    | nil => simp only [stepF, hq]; exact regPost_refl s
    | cons p rest =>
      cases hr : recur with
      | none => simp only [stepF, hq, hr]; exact regPost_refl s
      | some f =>
        simp only [stepF, hq, hr]
        exact regPost_trans (regPost_same rfl rfl) (hrec f hr _ _)

theorem step_regPost : ∀ (fuel : Nat) (s : DState) (t : Task),
    RegPost s ((step fuel s t).1) := by
  intro fuel
  induction fuel with
  | zero =>
    intro s t
    exact stepF_regPost none (fun f h => by cases h) s t
  | succ n ih =>
    intro s t
    refine stepF_regPost (some (step n)) ?_ s t
    intro f h s' t'
    cases h
    exact ih s' t'

theorem dispatch_fst (fuel : Nat) (s : DState) (p : Nat) :
    (dispatch fuel s p).1 = (step fuel s (Task.disp p)).1 := by
  unfold dispatch
  split <;> rfl

theorem unregister_not_mem (s : DState) (id : Nat) :
    id ∉ (unregister s id).callbacks.map Prod.fst := by
  intro h
  rcases List.mem_map.mp h with ⟨kv, hkv, hfst⟩
  rcases List.mem_filter.mp hkv with ⟨_, hcond⟩
  rw [hfst] at hcond
  simp at hcond

/-- Claim C9 (confirmed).  First conjunct: after `unregister(id)`, a
subsequent `dispatch(payload)` never invokes `id`'s callback — any invoke
event for `id` on the post-dispatch trace was already on the trace before
the dispatch (`unregister` leaves the trace unchanged, so it is an event of
an earlier broadcast).  This holds for every prior state, in particular when
`id` still sits in the pending list of an earlier broadcast: the fresh
pending snapshot and the registration re-check inside the pending closure
both consult `_callbacks`, where `id` is gone.  Second and third conjuncts:
`unregister` is idempotent, and unregistering an unknown id is a no-op, so
repeated or stray unregistrations cannot corrupt the dispatcher state. -/
theorem unregister_is_permanent :
    (∀ fuel s id p b q,
        Ev.invoke b q id ∈ (dispatch fuel (unregister s id) p).1.trace →
        Ev.invoke b q id ∈ s.trace) ∧
    (∀ s id, unregister (unregister s id) id = unregister s id) ∧
    (∀ s id, id ∉ s.callbacks.map Prod.fst → unregister s id = s) := by
  refine ⟨?_, ?_, ?_⟩
  · intro fuel s id p b q hm
    rw [dispatch_fst] at hm
    have hpost := step_regPost fuel (unregister s id) (Task.disp p)
    rcases hpost.2 b q id hm with h | h
    · exact h
    · exact absurd h (unregister_not_mem s id)
  · intro s id
    simp only [unregister, List.filter_filter]
    have he : (fun a : Nat × Callback => a.1 != id && a.1 != id)
        = (fun kv : Nat × Callback => kv.1 != id) := by
      funext kv
      rw [Bool.and_self]
    rw [he]
  · intro s id hmem
    have hall : ∀ kv ∈ s.callbacks, (kv.1 != id) = true := by
      intro kv hkv
      by_contra hne
      simp only [bne_iff_ne, ne_eq, not_not] at hne
      exact hmem (List.mem_map.mpr ⟨kv, hkv, hne⟩)
    simp only [unregister, List.filter_eq_self.mpr hall]

theorem unregister_is_permanent_witness :
    (Ev.invoke 0 0 5 ∈ stateC9w.trace) ∧ unregister stateC9w 7 = stateC9w := by
  constructor
  · exact unregister_is_permanent.1 3 stateC9w 5 9 0 0 (by decide)
  · exact unregister_is_permanent.2.2 stateC9w 7 (by decide)

theorem step_each_nil (fuel : Nat) (s : DState) :
    step fuel s (Task.each []) = (s, Except.ok ()) := by
  cases fuel <;> rfl

theorem step_drain_nil (fuel : Nat) (s : DState) (h : s.queued = []) :
    step fuel s Task.drainQ = (s, Except.ok ()) := by
  cases fuel with
  | zero => simp [step_zero, stepF, h]
  | succ n => simp [step_succ, stepF, h]

theorem step_stop_nil (fuel : Nat) (s : DState) (h : s.queued = []) :
    step fuel s Task.stopD =
      ({ s with flag := some false, trace := s.trace ++ [Ev.stop] },
       Except.ok ()) := by
  cases fuel with
  | zero => rfl
  | succ n =>
    show ((step n { s with flag := some false, trace := s.trace ++ [Ev.stop] }
            Task.drainQ).1, Except.ok ()) = _
    rw [step_drain_nil n { s with flag := some false, trace := s.trace ++ [Ev.stop] } h]

/-- Claim C10 (confirmed).  A `dispatch(payload)` on a dispatcher with no
registered callbacks and no open broadcast (any non-truthy `_isDispatching`,
which covers both the fresh `undefined` and the post-broadcast `false`) and
an empty queue settles with a resolution, invokes no callback (the only
trace event added is the stop-dispatching step), and leaves the dispatching
flag `false` and the queue drained (still empty, inherited unchanged in the
final state).  The full final state is pinned down: the pending map is the
empty registration snapshot, the open set is cleared, the broadcast counter
advanced, and the dispatching-id marker cleared by the batch disposer. -/
theorem dispatch_on_idle_dispatcher_resolves :
    ∀ fuel s p, s.callbacks = [] → s.flag ≠ some true → s.queued = [] →
      dispatch (fuel + 2) s p =
        ({ s with flag := some false, openPromises := [], pending := [],
                  pendingPayload := p, pendingBno := s.nextBno,
                  nextBno := s.nextBno + 1, dispatchingId := none,
                  trace := s.trace ++ [Ev.stop] },
         DOutcome.settled (Except.ok ())) := by
  intro fuel s p h1 h2 h3
  have e1 : step (fuel + 2) s (Task.disp p) =
      step (fuel + 1)
        { s with flag := some true, openPromises := [],
                 pending := s.callbacks.map Prod.fst, pendingPayload := p,
                 pendingBno := s.nextBno, nextBno := s.nextBno + 1 }
        (Task.batch (s.callbacks.map Prod.fst)) := by
    show stepF (some (step (fuel + 1))) s (Task.disp p) = _
    simp only [stepF, if_neg h2]
  have e2 : step (fuel + 1)
      { s with flag := some true, openPromises := [],
               pending := s.callbacks.map Prod.fst, pendingPayload := p,
               pendingBno := s.nextBno, nextBno := s.nextBno + 1 }
      (Task.batch (s.callbacks.map Prod.fst)) =
      ((step fuel
          { s with flag := some true, openPromises := [],
                   pending := s.callbacks.map Prod.fst, pendingPayload := p,
                   pendingBno := s.nextBno, nextBno := s.nextBno + 1,
                   dispatchingId := none }
          Task.stopD).1, Except.ok ()) := by
    show stepF (some (step fuel))
        { s with flag := some true, openPromises := [],
                 pending := s.callbacks.map Prod.fst, pendingPayload := p,
                 pendingBno := s.nextBno, nextBno := s.nextBno + 1 }
        (Task.batch (s.callbacks.map Prod.fst)) = _
    rw [h1]
    simp only [stepF, List.map_nil, step_each_nil]
  have e3 : step fuel
      { s with flag := some true, openPromises := [],
               pending := s.callbacks.map Prod.fst, pendingPayload := p,
               pendingBno := s.nextBno, nextBno := s.nextBno + 1,
               dispatchingId := none }
      Task.stopD =
      ({ s with flag := some false, openPromises := [],
                pending := s.callbacks.map Prod.fst, pendingPayload := p,
                pendingBno := s.nextBno, nextBno := s.nextBno + 1,
                dispatchingId := none, trace := s.trace ++ [Ev.stop] },
       Except.ok ()) :=
    step_stop_nil fuel _ h3
  have hstep : step (fuel + 2) s (Task.disp p) =
      ({ s with flag := some false, openPromises := [], pending := [],
                pendingPayload := p, pendingBno := s.nextBno,
                nextBno := s.nextBno + 1, dispatchingId := none,
                trace := s.trace ++ [Ev.stop] }, Except.ok ()) := by
    rw [e1, e2, e3, h1]
    simp only [List.map_nil]
  show (if s.flag = some true then _ else _) = _
  rw [if_neg h2, hstep]

theorem dispatch_on_idle_dispatcher_resolves_witness :
    dispatch 2 initState 5 =
      ({ initState with flag := some false, openPromises := [], pending := [],
                        pendingPayload := 5, pendingBno := initState.nextBno,
                        nextBno := initState.nextBno + 1, dispatchingId := none,
                        trace := initState.trace ++ [Ev.stop] },
       DOutcome.settled (Except.ok ())) :=
  dispatch_on_idle_dispatcher_resolves 0 initState 5 rfl (by decide) rfl

theorem invokes_append (a b : List Ev) :
    invokes (a ++ b) = invokes a ++ invokes b := by
  simp [invokes]

theorem invokes_stop : invokes [Ev.stop] = [] := rfl

theorem invokes_settle (b i : Nat) (o : Bool) :
    invokes [Ev.settle b i o] = [] := rfl

theorem invokes_invoke (b p i : Nat) :
    invokes [Ev.invoke b p i] = [(b, i)] := rfl

theorem evolves_refl (s : DState) : Evolves s s :=
  ⟨rfl, rfl, Nat.le_refl _, ⟨[], by simp⟩, Or.inl ⟨rfl, rfl, fun _ hx => hx⟩⟩

theorem evolves_trans {a b c : DState} (h1 : Evolves a b) (h2 : Evolves b c) :
    Evolves a c := by
  obtain ⟨cb1, l1, n1, ⟨t1, ht1⟩, d1⟩ := h1
  obtain ⟨cb2, l2, n2, ⟨t2, ht2⟩, d2⟩ := h2
  refine ⟨cb2.trans cb1, l2.trans l1, Nat.le_trans n1 n2,
    ⟨t1 ++ t2, by rw [ht2, ht1, List.append_assoc]⟩, ?_⟩
  rcases d1 with ⟨e1, e2, e3⟩ | ⟨g1, g2⟩
  · rcases d2 with ⟨f1, f2, f3⟩ | ⟨k1, k2⟩
    · exact Or.inl ⟨f1.trans e1, f2.trans e2, fun x hx => e3 x (f3 x hx)⟩
    · exact Or.inr ⟨by rw [← e1]; exact k1, k2⟩
  · rcases d2 with ⟨f1, f2, f3⟩ | ⟨k1, k2⟩
    · exact Or.inr ⟨by rw [f1]; exact g1, by rw [f2]; exact g2⟩
    · exact Or.inr ⟨Nat.lt_trans g1 k1, k2⟩

theorem evolvesJob_post (s : DState) (idx : Nat) :
    EvolvesJob s (postDispatch s idx) idx :=
  ⟨rfl, rfl, Nat.le_refl _, ⟨[], by simp [postDispatch]⟩,
   Or.inl ⟨rfl, rfl, fun x hx => (List.mem_filter.mp hx).1⟩⟩

theorem evolvesJob_post_of_evolves {s X : DState} {idx : Nat}
    (h : Evolves s X) : EvolvesJob s (postDispatch X idx) idx := by
  obtain ⟨h1, h2, h3, ⟨tl, h4⟩, h5⟩ := h
  refine ⟨h1, h2, h3, ⟨tl, h4⟩, ?_⟩
  rcases h5 with ⟨e1, e2, e3⟩ | ⟨e1, e2⟩
  · refine Or.inl ⟨e1, ?_, ?_⟩
    · show X.openPromises.filter (fun y => y != idx) = _
      rw [e2]
    · intro x hx
      exact e3 x (List.mem_filter.mp hx).1
  · refine Or.inr ⟨e1, ?_⟩
    show X.openPromises.filter (fun y => y != idx) = []
    rw [e2]
    rfl

theorem evolves_push_job {s s' : DState} {idx : Nat}
    (hno : idx ∉ s.openPromises)
    (h : EvolvesJob
      { s with dispatchingId := some idx,
               openPromises := s.openPromises ++ [idx] } s' idx) :
    Evolves s s' := by
  obtain ⟨h1, h2, h3, ⟨tl, h4⟩, h5⟩ := h
  refine ⟨h1, h2, h3, ⟨tl, h4⟩, ?_⟩
  rcases h5 with ⟨e1, e2, e3⟩ | ⟨e1, e2⟩
  · refine Or.inl ⟨e1, ?_, e3⟩
    rw [e2]
    show (s.openPromises ++ [idx]).filter (fun y => y != idx) = _
    rw [List.filter_append]
    have hid : List.filter (fun y => y != idx) [idx] = [] := by simp
    rw [hid, List.append_nil]
    apply List.filter_eq_self.mpr
    intro a ha
    simp only [bne_iff_ne, ne_eq]
    intro hcontra
    exact hno (hcontra ▸ ha)
  · exact Or.inr ⟨e1, e2⟩

theorem wf_congr {s s' : DState}
    (hcb : s'.callbacks = s.callbacks) (hlid : s'.lastID = s.lastID)
    (hpend : s'.pending = s.pending) (hopen : s'.openPromises = s.openPromises)
    (hbno : s'.pendingBno = s.pendingBno) (hnext : s'.nextBno = s.nextBno)
    (hinv : invokes s'.trace = invokes s.trace) (hwf : WF s) : WF s' := by
  obtain ⟨w1, w2, w3, w4, w5, w6⟩ := hwf
  refine ⟨?_, ?_, ?_, ?_, ?_, ?_⟩
  · rw [hinv]; exact w1
  · intro id hid hin
    rw [hpend] at hid
    rw [hinv, hbno] at hin
    rw [hopen]
    exact w2 id hid hin
  · rw [hcb]; exact w3
  · rw [hcb, hlid]; exact w4
  · rw [hbno, hnext]; exact w5
  · intro q hq
    rw [hinv] at hq
    rw [hnext]
    exact w6 q hq

theorem wf_settle_append (X : DState) (b i : Nat) (o : Bool) (h : WF X) :
    WF { X with trace := X.trace ++ [Ev.settle b i o] } :=
  @wf_congr X _ rfl rfl rfl rfl rfl rfl
    (by rw [invokes_append, invokes_settle, List.append_nil]) h

theorem wf_stop_append (X : DState) (h : WF X) :
    WF { X with flag := some false, trace := X.trace ++ [Ev.stop] } :=
  @wf_congr X _ rfl rfl rfl rfl rfl rfl
    (by rw [invokes_append, invokes_stop, List.append_nil]) h

theorem wf_queued_set (X : DState) (q : List Nat) (h : WF X) :
    WF { X with queued := q } :=
  @wf_congr X _ rfl rfl rfl rfl rfl rfl rfl h

theorem wf_did_clear (X : DState) (h : WF X) :
    WF { X with dispatchingId := none } :=
  @wf_congr X _ rfl rfl rfl rfl rfl rfl rfl h

theorem evolves_trace_append (X : DState) (e : Ev) :
    Evolves X { X with trace := X.trace ++ [e] } :=
  ⟨rfl, rfl, Nat.le_refl _, ⟨[e], rfl⟩, Or.inl ⟨rfl, rfl, fun _ hx => hx⟩⟩

theorem evolves_stop_state (X : DState) :
    Evolves X { X with flag := some false, trace := X.trace ++ [Ev.stop] } :=
  ⟨rfl, rfl, Nat.le_refl _, ⟨[Ev.stop], rfl⟩, Or.inl ⟨rfl, rfl, fun _ hx => hx⟩⟩

theorem evolves_queued_set (X : DState) (q : List Nat) :
    Evolves X { X with queued := q } :=
  ⟨rfl, rfl, Nat.le_refl _, ⟨[], by simp⟩, Or.inl ⟨rfl, rfl, fun _ hx => hx⟩⟩

theorem evolves_did_clear (X : DState) :
    Evolves X { X with dispatchingId := none } :=
  ⟨rfl, rfl, Nat.le_refl _, ⟨[], by simp⟩, Or.inl ⟨rfl, rfl, fun _ hx => hx⟩⟩

theorem wf_push_open (s : DState) (idx : Nat) (hwf : WF s) :
    WF { s with dispatchingId := some idx,
                openPromises := s.openPromises ++ [idx] } := by
  obtain ⟨w1, w2, w3, w4, w5, w6⟩ := hwf
  exact ⟨w1, fun id hid hin => List.mem_append.mpr (Or.inl (w2 id hid hin)),
         w3, w4, w5, w6⟩

theorem wf_postDispatch (s : DState) (idx : Nat) (hwf : WF s) :
    WF (postDispatch s idx) := by
  obtain ⟨w1, w2, w3, w4, w5, w6⟩ := hwf
  refine ⟨w1, ?_, w3, w4, w5, w6⟩
  intro id hid hin
  have hmem := List.mem_filter.mp hid
  exact List.mem_filter.mpr ⟨w2 id hmem.1 hin, hmem.2⟩

theorem wf_invoke (s : DState) (idx : Nat) (hwf : WF s)
    (hopen : idx ∈ s.openPromises)
    (hfresh : (s.pendingBno, idx) ∉ invokes s.trace) :
    WF { s with trace := s.trace ++ [Ev.invoke s.pendingBno s.pendingPayload idx] } := by
  obtain ⟨w1, w2, w3, w4, w5, w6⟩ := hwf
  have htr : invokes (s.trace ++ [Ev.invoke s.pendingBno s.pendingPayload idx])
      = invokes s.trace ++ [(s.pendingBno, idx)] := by
    rw [invokes_append, invokes_invoke]
  refine ⟨?_, ?_, w3, w4, w5, ?_⟩
  · show (invokes (s.trace ++ [Ev.invoke s.pendingBno s.pendingPayload idx])).Nodup
    rw [htr]
    refine List.Nodup.append w1 (List.nodup_singleton _) ?_
    intro a ha hb
    simp only [List.mem_singleton] at hb
    exact hfresh (hb ▸ ha)
  · intro id hid hin
    show id ∈ s.openPromises
    have hin' : (s.pendingBno, id) ∈ invokes s.trace ++ [(s.pendingBno, idx)] := by
      rw [← htr]
      exact hin
    rcases List.mem_append.mp hin' with h | h
    · exact w2 id hid h
    · simp only [List.mem_singleton, Prod.mk.injEq] at h
      rw [h.2]
      exact hopen
  · intro q hq
    have hq' : q ∈ invokes s.trace ++ [(s.pendingBno, idx)] := by
      rw [← htr]
      exact hq
    rcases List.mem_append.mp hq' with h | h
    · exact w6 q h
    · simp only [List.mem_singleton] at h
      rw [h]
      exact w5

theorem wf_disp_open (s : DState) (p : Nat) (hwf : WF s) :
    WF { s with flag := some true, openPromises := [],
                pending := s.callbacks.map Prod.fst, pendingPayload := p,
                pendingBno := s.nextBno, nextBno := s.nextBno + 1 } := by
  obtain ⟨w1, w2, w3, w4, w5, w6⟩ := hwf
  refine ⟨w1, ?_, w3, w4, Nat.lt_succ_self _, ?_⟩
  · intro id hid hin
    exact absurd (w6 _ hin) (Nat.lt_irrefl _)
  · intro q hq
    exact Nat.lt_succ_of_lt (w6 q hq)

theorem collectWait_ok (s : DState) :
    ∀ ids acc l, collectWait s ids acc = Except.ok l →
      acc.Nodup → (∀ x ∈ acc, x ∈ s.pending) → (∀ x ∈ acc, x ∉ s.openPromises) →
      l.Nodup ∧ (∀ x ∈ l, x ∈ s.pending) ∧ (∀ x ∈ l, x ∉ s.openPromises) := by
  intro ids
  induction ids with
  | nil =>
    intro acc l h hnd hp ho
    simp only [collectWait] at h
    cases h
    exact ⟨hnd, hp, ho⟩
  | cons id rest ih =>
    intro acc l h hnd hp ho
    by_cases h1 : (lookupCb s.callbacks id).isNone = true
    · simp only [collectWait, if_pos h1] at h
      cases h
    · simp only [collectWait, if_neg h1] at h
      by_cases h2 : id ∈ s.openPromises
      · simp only [if_pos h2] at h
        cases h
      · simp only [if_neg h2] at h
        by_cases h3 : id ∈ s.pending ∧ id ∉ acc
        · simp only [if_pos h3] at h
          refine ih (acc ++ [id]) l h ?_ ?_ ?_
          · refine List.Nodup.append hnd (List.nodup_singleton _) ?_
            intro a ha hb
            simp only [List.mem_singleton] at hb
            exact h3.2 (hb ▸ ha)
          · intro x hx
            rcases List.mem_append.mp hx with hx | hx
            · exact hp x hx
            · simp only [List.mem_singleton] at hx
              rw [hx]
              exact h3.1
          · intro x hx
            rcases List.mem_append.mp hx with hx | hx
            · exact ho x hx
            · simp only [List.mem_singleton] at hx
              rw [hx]
              exact h2
        · simp only [if_neg h3] at h
          exact ih acc l h hnd hp ho

theorem stepF_ok
    (recur : Option (DState → Task → DState × Except String Unit))
    (hrec : ∀ f, recur = some f → StepOk f) :
    StepOk (stepF recur) := by
  intro s t hwf hpre
  cases t with
  | prog pr =>
    cases pr with
    | done => exact ⟨hwf, evolves_refl s⟩
    | fail m => exact ⟨hwf, evolves_refl s⟩
    | dispatchP p k =>
      cases hr : recur with
      | none => simp only [stepF, hr]; exact ⟨hwf, evolves_refl s⟩
      | some f =>
        simp only [stepF, hr]
        obtain ⟨wf1, ev1⟩ := hrec f hr s (Task.disp p) hwf trivial
        obtain ⟨wf2, ev2⟩ := hrec f hr _ (Task.prog k) wf1 trivial
        exact ⟨wf2, evolves_trans ev1 ev2⟩
    | waitForP ids k =>
      cases hr : recur with
      | none => simp only [stepF, hr]; exact ⟨hwf, evolves_refl s⟩
      | some f =>
        simp only [stepF, hr]
        obtain ⟨wf1, ev1⟩ := hrec f hr s (Task.wait ids) hwf trivial
        obtain ⟨wf2, ev2⟩ := hrec f hr _ (Task.prog (k (f s (Task.wait ids)).2)) wf1 trivial
        exact ⟨wf2, evolves_trans ev1 ev2⟩
  | wait ids =>
    by_cases hflag : s.flag = some true
    · simp only [stepF, if_pos hflag]
      cases hc : collectWait s ids [] with
      | error e => exact ⟨hwf, evolves_refl s⟩
      | ok l =>
        cases l with
        | nil => exact ⟨hwf, evolves_refl s⟩
        | cons i rest =>
          cases hr : recur with
          | none => exact ⟨hwf, evolves_refl s⟩
          | some f =>
            obtain ⟨hnd, _, hnopen⟩ := collectWait_ok s ids [] (i :: rest) hc
              List.nodup_nil (fun x hx => absurd hx (List.not_mem_nil x))
              (fun x hx => absurd hx (List.not_mem_nil x))
            exact hrec f hr s (Task.batch (i :: rest)) hwf ⟨hnd, hnopen⟩
    · simp only [stepF, if_neg hflag]
      exact ⟨hwf, evolves_refl s⟩
  | batch idxs =>
    obtain ⟨hnd, hdisj⟩ := hpre
    cases hr : recur with
    | none => simp only [stepF, hr]; exact ⟨hwf, evolves_refl s⟩
    | some f =>
      simp only [stepF, hr]
      obtain ⟨wfA, evA⟩ := hrec f hr s (Task.each idxs) hwf ⟨hnd, hdisj⟩
      have wfB := wf_did_clear (f s (Task.each idxs)).1 wfA
      have evB := evolves_did_clear (f s (Task.each idxs)).1
      obtain ⟨wfC, evC⟩ := hrec f hr _ Task.stopD wfB trivial
      exact ⟨wfC, evolves_trans evA (evolves_trans evB evC)⟩
  | each l =>
    cases l with
    | nil => exact ⟨hwf, evolves_refl s⟩
    | cons idx rest =>
      obtain ⟨hnd, hdisj⟩ := hpre
      cases hr : recur with
      | none => simp only [stepF, hr]; exact ⟨hwf, evolves_refl s⟩
      | some f =>
        simp only [stepF, hr]
        have hno : idx ∉ s.openPromises := hdisj idx (List.mem_cons_self idx rest)
        have hwf1 : WF { s with dispatchingId := some idx,
                                openPromises := s.openPromises ++ [idx] } :=
          wf_push_open s idx hwf
        have hpre1 : TaskPre { s with dispatchingId := some idx,
                                      openPromises := s.openPromises ++ [idx] }
            (Task.job idx) := by
          refine ⟨List.mem_append.mpr (Or.inr (List.mem_singleton.mpr rfl)), ?_⟩
          intro hin hpend
          exact hno (hwf.2.1 idx hpend hin)
        obtain ⟨wfr, evr⟩ := hrec f hr _ (Task.job idx) hwf1 hpre1
        have evs : Evolves s
            ((f { s with dispatchingId := some idx,
                         openPromises := s.openPromises ++ [idx] }
                (Task.job idx)).1) := evolves_push_job hno evr
        rcases hfe : f { s with dispatchingId := some idx,
                                openPromises := s.openPromises ++ [idx] }
            (Task.job idx) with ⟨s2, res⟩
        rw [hfe] at wfr evr evs
        cases res with
        | ok u =>
          have hpre2 : TaskPre s2 (Task.each rest) := by
            refine ⟨List.Nodup.of_cons hnd, ?_⟩
            intro i hi hmem
            rcases evr.2.2.2.2 with ⟨_, e2, _⟩ | ⟨_, e2⟩
            · rw [e2] at hmem
              have h1 := List.mem_filter.mp hmem
              have h2 : i ≠ idx := by simpa using h1.2
              rcases List.mem_append.mp h1.1 with h3 | h3
              · exact hdisj i (List.mem_cons_of_mem idx hi) h3
              · simp only [List.mem_singleton] at h3
                exact h2 h3
            · rw [e2] at hmem
              exact absurd hmem (List.not_mem_nil i)
          obtain ⟨wf2, ev2⟩ := hrec f hr s2 (Task.each rest) wfr hpre2
          exact ⟨wf2, evolves_trans evs ev2⟩
        | error e => exact ⟨wfr, evs⟩
  | job idx =>
    obtain ⟨hopen, hfresh⟩ := hpre
    by_cases hp : idx ∈ s.pending
    · cases hl : lookupCb s.callbacks idx with
      | none =>
        simp only [stepF, if_pos hp, hl]
        exact ⟨wf_postDispatch s idx hwf, evolvesJob_post s idx⟩
      | some cb =>
        cases hr : recur with
        | none =>
          simp only [stepF, if_pos hp, hl, hr]
          exact ⟨wf_postDispatch s idx hwf, evolvesJob_post s idx⟩
        | some f =>
          simp only [stepF, if_pos hp, hl, hr]
          have hnot : (s.pendingBno, idx) ∉ invokes s.trace :=
            fun hin => (hfresh hin) hp
          have wf1 : WF { s with trace :=
              s.trace ++ [Ev.invoke s.pendingBno s.pendingPayload idx] } :=
            wf_invoke s idx hwf hopen hnot
          have ev01 : Evolves s { s with trace :=
              s.trace ++ [Ev.invoke s.pendingBno s.pendingPayload idx] } :=
            evolves_trace_append s (Ev.invoke s.pendingBno s.pendingPayload idx)
          obtain ⟨wfr, evr⟩ := hrec f hr
            { s with trace := s.trace ++ [Ev.invoke s.pendingBno s.pendingPayload idx] }
            (Task.prog (cb s.pendingPayload)) wf1 trivial
          have wf2 := wf_settle_append
            (f { s with trace := s.trace ++ [Ev.invoke s.pendingBno s.pendingPayload idx] }
              (Task.prog (cb s.pendingPayload))).1
            s.pendingBno idx
            (okBool (f { s with trace := s.trace ++ [Ev.invoke s.pendingBno s.pendingPayload idx] }
              (Task.prog (cb s.pendingPayload))).2) wfr
          have ev12 := evolves_trace_append
            (f { s with trace := s.trace ++ [Ev.invoke s.pendingBno s.pendingPayload idx] }
              (Task.prog (cb s.pendingPayload))).1
            (Ev.settle s.pendingBno idx
              (okBool (f { s with trace := s.trace ++ [Ev.invoke s.pendingBno s.pendingPayload idx] }
                (Task.prog (cb s.pendingPayload))).2))
          exact ⟨wf_postDispatch _ idx wf2,
                 evolvesJob_post_of_evolves
                   (evolves_trans ev01 (evolves_trans evr ev12))⟩
    · simp only [stepF, if_neg hp]
      exact ⟨wf_postDispatch s idx hwf, evolvesJob_post s idx⟩
  | disp p =>
    by_cases hflag : s.flag = some true
    · simp only [stepF, if_pos hflag]
      exact ⟨wf_queued_set s (s.queued ++ [p]) hwf,
             evolves_queued_set s (s.queued ++ [p])⟩
    · simp only [stepF, if_neg hflag]
      cases hr : recur with
      | none => exact ⟨hwf, evolves_refl s⟩
      | some f =>
        have wf1 := wf_disp_open s p hwf
        have hpre1 : TaskPre
            { s with flag := some true, openPromises := [],
                     pending := s.callbacks.map Prod.fst, pendingPayload := p,
                     pendingBno := s.nextBno, nextBno := s.nextBno + 1 }
            (Task.batch (s.callbacks.map Prod.fst)) :=
          ⟨hwf.2.2.1, fun i _ => List.not_mem_nil i⟩
        obtain ⟨wfr, evr⟩ := hrec f hr _
          (Task.batch (s.callbacks.map Prod.fst)) wf1 hpre1
        refine ⟨wfr, ?_⟩
        obtain ⟨e1, e2, e3, ⟨tl, e4⟩, e5⟩ := evr
        refine ⟨e1, e2, Nat.le_trans (Nat.le_succ _) e3, ⟨tl, e4⟩, ?_⟩
        rcases e5 with ⟨f1, f2, _⟩ | ⟨f1, f2⟩
        · refine Or.inr ⟨?_, ?_⟩
          · rw [f1]
            exact hwf.2.2.2.2.1
          · rw [f2]
        · exact Or.inr ⟨Nat.lt_trans hwf.2.2.2.2.1 f1, f2⟩
  | stopD =>
    have wf1 := wf_stop_append s hwf
    have ev1 := evolves_stop_state s
    cases hr : recur with
    | none => simp only [stepF, hr]; exact ⟨wf1, ev1⟩
    | some f =>
      simp only [stepF, hr]
      obtain ⟨wfr, evr⟩ := hrec f hr _ Task.drainQ wf1 trivial
      exact ⟨wfr, evolves_trans ev1 evr⟩
  | drainQ =>
    cases hq : s.queued with
    | nil => simp only [stepF, hq]; exact ⟨hwf, evolves_refl s⟩
    | cons p rest =>
      cases hr : recur with
      | none => simp only [stepF, hq, hr]; exact ⟨hwf, evolves_refl s⟩
      | some f =>
        simp only [stepF, hq, hr]
        have wf1 := wf_queued_set s rest hwf
        have ev1 := evolves_queued_set s rest
        obtain ⟨wfr, evr⟩ := hrec f hr _ (Task.disp p) wf1 trivial
        exact ⟨wfr, evolves_trans ev1 evr⟩

theorem step_ok (fuel : Nat) : StepOk (step fuel) := by
  induction fuel with
  | zero => exact stepF_ok none (fun f h => by cases h)
  | succ n ih =>
    refine stepF_ok (some (step n)) ?_
    intro f h
    cases h
    exact ih

theorem wf_register (s : DState) (cb : Callback) (hwf : WF s) :
    WF (register s cb).1 := by
  obtain ⟨w1, w2, w3, w4, w5, w6⟩ := hwf
  refine ⟨w1, w2, ?_, ?_, w5, w6⟩
  · show ((s.callbacks ++ [(s.lastID, cb)]).map Prod.fst).Nodup
    rw [List.map_append]
    refine List.Nodup.append w3 (List.nodup_singleton _) ?_
    intro a ha hb
    simp only [List.map_cons, List.map_nil, List.mem_singleton] at hb
    rw [hb] at ha
    exact Nat.lt_irrefl s.lastID (w4 s.lastID ha)
  · intro k hk
    show k < s.lastID + 1
    have hk' : k ∈ (s.callbacks ++ [(s.lastID, cb)]).map Prod.fst := hk
    rw [List.map_append] at hk'
    rcases List.mem_append.mp hk' with h | h
    · exact Nat.lt_succ_of_lt (w4 k h)
    · simp only [List.map_cons, List.map_nil, List.mem_singleton] at h
      rw [h]
      exact Nat.lt_succ_self _

theorem wf_unregister (s : DState) (id : Nat) (hwf : WF s) :
    WF (unregister s id) := by
  obtain ⟨w1, w2, w3, w4, w5, w6⟩ := hwf
  have hsub : List.Sublist
      ((s.callbacks.filter (fun kv => kv.1 != id)).map Prod.fst)
      (s.callbacks.map Prod.fst) :=
    List.Sublist.map Prod.fst (List.filter_sublist s.callbacks)
  refine ⟨w1, w2, List.Nodup.sublist hsub w3, ?_, w5, w6⟩
  intro k hk
  exact w4 k (List.Sublist.subset hsub hk)

theorem wf_init : WF initState := by
  refine ⟨List.nodup_nil, ?_, List.nodup_nil, ?_, Nat.zero_lt_one, ?_⟩
  · intro id hid
    exact absurd hid (List.not_mem_nil id)
  · intro k hk
    exact absurd hk (List.not_mem_nil k)
  · intro q hq
    exact absurd hq (List.not_mem_nil q)

theorem runScript_wf (fuel : Nat) :
    ∀ script s, WF s → WF (runScript fuel s script) := by
  intro script
  induction script with
  | nil => intro s h; exact h
  | cons op rest ih =>
    intro s h
    cases op with
    | reg cb => exact ih _ (wf_register s cb h)
    | unreg id => exact ih _ (wf_unregister s id h)
    | disp p =>
      refine ih _ ?_
      show WF (dispatch fuel s p).1
      rw [dispatch_fst]
      exact (step_ok fuel s (Task.disp p) h trivial).1

/-- Claim C7 (confirmed).  First conjunct, for every fuel bound and every
top-level script of register / unregister / dispatch operations (with
arbitrary callback bodies, including nested `waitFor` calls and
fire-and-forget dispatches): the `(broadcast, id)` pairs of the trace's
invocation events are pairwise distinct — within any single broadcast, each
identifier's callback is executed at most once.  This rests on the `WF`
invariant: an id consumed by a `waitFor` sub-batch is deleted from the
shared pending map by its `_postDispatch` cleanup, so the parent batch's
loop later finds no pending entry and skips the invocation (while still
running the cleanup), and an id currently executing sits on the open set, so
a `waitFor` cannot collect it again.  Second and third conjuncts illustrate
the skip concretely: in `scenarioC7` (id 1 waits for id 2), id 2 is invoked
exactly once — by the sub-batch, not again by the parent loop — and the
pending map is fully cleaned out by the end of the broadcast. -/
theorem callback_invoked_at_most_once_per_broadcast :
    (∀ fuel script, (invokes (runScript fuel initState script).trace).Nodup) ∧
    invokes (runScript 40 initState scenarioC7).trace = [(1, 1), (1, 2)] ∧
    (runScript 40 initState scenarioC7).pending = [] := by
  refine ⟨?_, by decide, by decide⟩
  intro fuel script
  exact (runScript_wf fuel script initState wf_init).1

end FluxDispatcher
